import Mathlib

/-!
Verification model of `src/db/db.py` (BOJ_Whishper): a singleton SQLite
wrapper with schema bootstrap and a small set of CRUD operations.

The embedding has three parts:
* a serializer/deserializer pair mirroring `json.dumps` / `json.loads`
  restricted to lists of integers (the only values the code serializes,
  column `Users.solved_problems`);
* a relational state model of the four tables and the operations
  `add_user`, `add_server`, `add_channel`, `map_user_to_channel`,
  `update_user_solved_problems`, `get_user_channels`,
  `get_user_id_by_handle`, each translated statement-by-statement from
  the SQL in `db.py`;
* an interleaved transition system for `Database.__new__`'s
  double-checked locking, one atomic step per Python statement
  (CPython executes each bytecode atomically under the GIL).
-/

/-! ### Serialization of `List Int` as Python's `json.dumps` text -/

/-- The decimal digit character for `d` (`str` of a single digit in Python). -/
def digitChar (d : Nat) : Char :=
  match d with
  | 0 => '0' | 1 => '1' | 2 => '2' | 3 => '3' | 4 => '4'
  | 5 => '5' | 6 => '6' | 7 => '7' | 8 => '8' | _ => '9'

/-- Decimal digits of a natural number, most significant first
(Python `str(n)` for `n ≥ 0`). -/
def natToDigits (n : Nat) : List Char :=
  if _h : n < 10 then [digitChar n]
  else natToDigits (n / 10) ++ [digitChar (n % 10)]
  decreasing_by exact Nat.div_lt_self (by omega) (by omega)

/-- Python `str(i)` for an arbitrary integer: a minus sign before the
digits of the absolute value when negative. -/
def intToChars (i : Int) : List Char :=
  if i < 0 then '-' :: natToDigits i.natAbs else natToDigits i.toNat

/-- The elements of a JSON array body, separated by `", "` exactly as
`json.dumps` emits them. -/
def encodeList : List Int → List Char
  | [] => []
  | [x] => intToChars x
  | x :: y :: xs => intToChars x ++ ',' :: ' ' :: encodeList (y :: xs)

/-- `json.dumps(ps)` for a Python list of ints: `"[" + ", ".join(...) + "]"`. -/
def jsonDumpsIntList (ps : List Int) : String :=
  String.mk ('[' :: (encodeList ps ++ [']']))

/-- Accumulating decimal-digit scanner: consumes leading digit
characters, folding them into `acc`. -/
def parseNatAux : List Char → Nat → Nat × List Char
  | [], acc => (acc, [])
  | c :: cs, acc =>
    if c.isDigit then parseNatAux cs (acc * 10 + (c.toNat - 48))
    else (acc, c :: cs)

/-- Parses one or more decimal digits into a natural number; fails when
the input does not start with a digit. -/
def parseNat (cs : List Char) : Option (Nat × List Char) :=
  match cs with
  | [] => none
  | c :: cs' =>
    if c.isDigit then some (parseNatAux cs' (c.toNat - 48))
    else none

/-- Parses a (possibly negative) decimal integer. -/
def parseInt (cs : List Char) : Option (Int × List Char) :=
  match cs with
  | [] => none
  | c :: rest =>
    if c = '-' then (parseNat rest).map (fun p => (-(p.1 : Int), p.2))
    else (parseNat (c :: rest)).map (fun p => ((p.1 : Int), p.2))

/-- Parses the non-empty body of a JSON integer array in the exact shape
`json.dumps` produces (items separated by `", "`, closed by `]`),
with `fuel` bounding the number of items. -/
def parseItems : Nat → List Char → Option (List Int × List Char)
  | 0, _ => none
  | fuel + 1, cs =>
    match parseInt cs with
    | none => none
    | some (i, rest) =>
      match rest with
      | [] => none
      | c :: rest2 =>
        if c = ']' then some ([i], rest2)
        else if c = ',' then
          match rest2 with
          | [] => none
          | c2 :: rest3 =>
            if c2 = ' ' then
              match parseItems fuel rest3 with
              | some (is, rest4) => some (i :: is, rest4)
              | none => none
            else none
        else none

/-- `json.loads` restricted to the grammar `json.dumps` emits for lists
of integers: the whole string must be consumed. -/
def jsonLoadsIntList (s : String) : Option (List Int) :=
  match s.data with
  | '[' :: rest =>
    if rest = [']'] then some []
    else
      match parseItems rest.length rest with
      | some (is, []) => some is
      | _ => none
  | _ => none

/-! ### Relational state model of the four tables in `db.py`

Rows carry exactly the columns declared in `_initialize_database`.
Timestamps (`datetime.now()`) are modelled by a `now : Nat` argument to
each operation that reads the clock.  `AUTOINCREMENT` surrogate keys are
`row count + 1` (no delete operation exists, so this matches SQLite's
assignment).  A failing SQL statement commits nothing, so a failing
operation returns `Except.error` and the caller keeps the old state. -/

/-- A row of `Users`. -/
structure UserRow where
  id : Nat
  handle : String
  solved_count : Int
  solved_problems : String
  last_check_time : Nat
  last_update_time : Nat
deriving DecidableEq, Repr

/-- A row of `Servers`. -/
structure ServerRow where
  id : Nat
  name : String
deriving DecidableEq, Repr

/-- A row of `Channels`. -/
structure ChannelRow where
  id : Nat
  name : String
  server_id : Int
deriving DecidableEq, Repr

/-- A row of `UserChannelMapping`. -/
structure MappingRow where
  id : Nat
  user_id : Nat
  channel_id : Int
  server_id : Int
deriving DecidableEq, Repr

/-- The whole store: the four tables, in insertion (rowid) order. -/
structure DB where
  users : List UserRow
  servers : List ServerRow
  channels : List ChannelRow
  mappings : List MappingRow
deriving DecidableEq, Repr

/-- The state right after `_initialize_database` on a fresh file:
four empty tables. -/
def DB.empty : DB := ⟨[], [], [], []⟩

/-- Errors surfaced by the operations: sqlite3.IntegrityError from the
UNIQUE constraint on `Users.handle`, and the ValueError raised by
`map_user_to_channel`. -/
inductive DBError where
  | integrityError
  | userNotFound (handle : String)
deriving DecidableEq, Repr

/-- `Database.get_user_id_by_handle`: `SELECT id FROM Users WHERE handle = ?`
then `fetchone()`, i.e. the first row in rowid order, or `None`. -/
def DB.get_user_id_by_handle (db : DB) (handle : String) : Option Nat :=
  (db.users.find? (fun u => u.handle = handle)).map (fun u => u.id)

/-- `Database.add_user`: inserts
`(handle, 0, json.dumps([]), now, now)`; the UNIQUE constraint on
`handle` rejects a duplicate and the statement then changes nothing. -/
def DB.add_user (db : DB) (handle : String) (now : Nat) : Except DBError DB :=
  if db.users.any (fun u => u.handle = handle) then
    .error .integrityError
  else
    .ok { db with users := db.users ++
      [{ id := db.users.length + 1, handle := handle, solved_count := 0,
         solved_problems := jsonDumpsIntList [], last_check_time := now,
         last_update_time := now }] }

/-- `Database.add_server`: `INSERT INTO Servers (name) VALUES (?)`. -/
def DB.add_server (db : DB) (name : String) : DB :=
  { db with servers := db.servers ++ [{ id := db.servers.length + 1, name := name }] }

/-- `Database.add_channel`: inserts `(name, server_id)` with no
existence check on `server_id`. -/
def DB.add_channel (db : DB) (name : String) (server_id : Int) : DB :=
  { db with channels := db.channels ++
    [{ id := db.channels.length + 1, name := name, server_id := server_id }] }

/-- `Database.map_user_to_channel`: resolves the handle via
`get_user_id_by_handle`; inserts a mapping row when it resolves,
otherwise raises `ValueError` (no check on `channel_id`/`server_id`). -/
def DB.map_user_to_channel (db : DB) (handle : String)
    (channel_id server_id : Int) : Except DBError DB :=
  match db.get_user_id_by_handle handle with
  | some uid => .ok { db with mappings := db.mappings ++
      [{ id := db.mappings.length + 1, user_id := uid,
         channel_id := channel_id, server_id := server_id }] }
  | none => .error (.userNotFound handle)

/-- `Database.update_user_solved_problems`:
`UPDATE Users SET solved_count = ?, solved_problems = ?, last_update_time = ? WHERE handle = ?`
with `solved_count = len(solved_problems)` and
`solved_problems = json.dumps(solved_problems)`.  Every row matching the
handle is updated; zero matching rows is not an error. -/
def DB.update_user_solved_problems (db : DB) (handle : String)
    (solved_problems : List Int) (now : Nat) : DB :=
  { db with users := db.users.map (fun u =>
      if u.handle = handle then
        { u with solved_count := (solved_problems.length : Int),
                 solved_problems := jsonDumpsIntList solved_problems,
                 last_update_time := now }
      else u) }

/-- `Database.get_user_channels`: the four-way inner join
`UserChannelMapping ⋈ Users ⋈ Channels ⋈ Servers` filtered by
`Users.handle = ?`, selecting
`(Channels.id, Channels.name, Servers.id, Servers.name)`, as a
nested-loop join in rowid order. -/
def DB.get_user_channels (db : DB) (handle : String) :
    List (Nat × String × Nat × String) :=
  db.mappings.flatMap (fun m =>
    db.users.flatMap (fun u =>
      db.channels.flatMap (fun c =>
        db.servers.filterMap (fun s =>
          if m.user_id = u.id ∧ m.channel_id = (c.id : Int) ∧
             m.server_id = (s.id : Int) ∧ u.handle = handle then
            some (c.id, c.name, s.id, s.name)
          else none))))

/-- One call into the store, with the clock readings it makes. -/
inductive Op where
  | addUser (handle : String) (now : Nat)
  | addServer (name : String)
  | addChannel (name : String) (server_id : Int)
  | mapUserToChannel (handle : String) (channel_id server_id : Int)
  | updateSolved (handle : String) (ps : List Int) (now : Nat)
deriving DecidableEq, Repr

/-- Runs one operation, surfacing the error it raises, if any. -/
def runOp (db : DB) : Op → Except DBError DB
  | .addUser h now => db.add_user h now
  | .addServer n => .ok (db.add_server n)
  | .addChannel n sid => .ok (db.add_channel n sid)
  | .mapUserToChannel h cid sid => db.map_user_to_channel h cid sid
  | .updateSolved h ps now => .ok (db.update_user_solved_problems h ps now)

/-- The state after an operation: a raising call commits nothing, so the
store keeps its previous state. -/
def applyOp (db : DB) (op : Op) : DB :=
  match runOp db op with
  | .ok db2 => db2
  | .error _ => db

/-- The state after a whole call sequence, starting from the freshly
bootstrapped (empty) schema. -/
def runTrace (ops : List Op) : DB := ops.foldl applyOp DB.empty

/-- A store state reachable by some sequence of operations. -/
def Reachable (db : DB) : Prop := ∃ ops, runTrace ops = db

/-! ### Interleaved model of `Database.__new__` (double-checked locking)

`Database.__new__` is modelled as a transition system over any number of
caller threads.  Each atomic step is one Python statement (CPython runs
each under the GIL): the unsynchronized check
`cls._instance is None and not cls._dcl`, acquiring `cls._lock`, the
synchronized re-check, the assignment of `cls._instance`, the
connection/cursor/`_initialize_database` setup (counted by `initCount`),
the `cls._dcl = True` write, releasing the lock, and the final
`return cls._instance` read. -/

/-- The program counter of one thread inside `Database.__new__`. -/
inductive PC where
  | start
  | waiting
  | locked
  | creating
  | initializing
  | settingDcl
  | unlocking
  | retpoint
  | done (v : Option Nat)
deriving DecidableEq, Repr

/-- The shared class-level state of `Database` plus each caller thread's
program counter.  `instanceRef` is `Database._instance` (instances are
named by creation order), `dcl` is `Database._dcl`, `lockHolder` is the
owner of `Database._lock`, and `initCount` counts executions of the
connection-setup/schema-bootstrap block. -/
structure SingletonState where
  instanceRef : Option Nat
  dcl : Bool
  lockHolder : Option Nat
  initCount : Nat
  nextId : Nat
  numThreads : Nat
  pcOf : Nat → PC

/-- Replaces one thread's program counter. -/
def SingletonState.setPC (s : SingletonState) (t : Nat) (pc : PC) : SingletonState :=
  { s with pcOf := fun u => if u = t then pc else s.pcOf u }

/-- A fresh process with `n` threads about to call `Database()`. -/
def initialState (n : Nat) : SingletonState :=
  { instanceRef := none, dcl := false, lockHolder := none, initCount := 0,
    nextId := 0, numThreads := n, pcOf := fun _ => PC.start }

/-- One atomic step of one thread of `Database.__new__`. -/
inductive SStep : SingletonState → SingletonState → Prop
  | checkTrue (s : SingletonState) (t : Nat) (ht : t < s.numThreads)
      (hpc : s.pcOf t = PC.start) (h1 : s.instanceRef = none) (h2 : s.dcl = false) :
      SStep s (s.setPC t PC.waiting)
  | checkFalse (s : SingletonState) (t : Nat) (ht : t < s.numThreads)
      (hpc : s.pcOf t = PC.start) (h : ¬ (s.instanceRef = none ∧ s.dcl = false)) :
      SStep s (s.setPC t PC.retpoint)
  | acquire (s : SingletonState) (t : Nat) (ht : t < s.numThreads)
      (hpc : s.pcOf t = PC.waiting) (h : s.lockHolder = none) :
      SStep s { s.setPC t PC.locked with lockHolder := some t }
  | recheckTrue (s : SingletonState) (t : Nat) (ht : t < s.numThreads)
      (hpc : s.pcOf t = PC.locked) (h : s.instanceRef = none) :
      SStep s (s.setPC t PC.creating)
  | recheckFalse (s : SingletonState) (t : Nat) (ht : t < s.numThreads)
      (hpc : s.pcOf t = PC.locked) (h : s.instanceRef ≠ none) :
      SStep s (s.setPC t PC.unlocking)
  | create (s : SingletonState) (t : Nat) (ht : t < s.numThreads)
      (hpc : s.pcOf t = PC.creating) :
      SStep s { s.setPC t PC.initializing with
                instanceRef := some s.nextId, nextId := s.nextId + 1 }
  | runInit (s : SingletonState) (t : Nat) (ht : t < s.numThreads)
      (hpc : s.pcOf t = PC.initializing) :
      SStep s { s.setPC t PC.settingDcl with initCount := s.initCount + 1 }
  | setDcl (s : SingletonState) (t : Nat) (ht : t < s.numThreads)
      (hpc : s.pcOf t = PC.settingDcl) :
      SStep s { s.setPC t PC.unlocking with dcl := true }
  | release (s : SingletonState) (t : Nat) (ht : t < s.numThreads)
      (hpc : s.pcOf t = PC.unlocking) (h : s.lockHolder = some t) :
      SStep s { s.setPC t PC.retpoint with lockHolder := none }
  | ret (s : SingletonState) (t : Nat) (ht : t < s.numThreads)
      (hpc : s.pcOf t = PC.retpoint) :
      SStep s (s.setPC t (PC.done s.instanceRef))

/-- States reachable by any interleaving of any number of threads. -/
inductive SReachable : SingletonState → Prop
  | init (n : Nat) : SReachable (initialState n)
  | step {s s2 : SingletonState} : SReachable s → SStep s s2 → SReachable s2

/-- Program counters at which a thread holds `Database._lock`. -/
def InRegion (pc : PC) : Prop :=
  pc = PC.locked ∨ pc = PC.creating ∨ pc = PC.initializing ∨
    pc = PC.settingDcl ∨ pc = PC.unlocking

/-- The inductive invariant of the double-checked-locking protocol. -/
structure SInv (s : SingletonState) : Prop where
  frozen : ∀ t, s.numThreads ≤ t → s.pcOf t = PC.start
  region_lock : ∀ t, InRegion (s.pcOf t) → s.lockHolder = some t
  dcl_inst : s.dcl = true → s.instanceRef ≠ none
  inst_regions : ∀ t, (s.pcOf t = PC.initializing ∨ s.pcOf t = PC.settingDcl ∨
      s.pcOf t = PC.unlocking ∨ s.pcOf t = PC.retpoint) → s.instanceRef ≠ none
  none_count : s.instanceRef = none → s.initCount = 0
  count_le : s.initCount ≤ 1
  count_one_no_pending : s.initCount = 1 →
      ∀ t, s.pcOf t ≠ PC.creating ∧ s.pcOf t ≠ PC.initializing
  inst_progress : s.instanceRef ≠ none → s.initCount = 1 ∨
      ∃ t, s.pcOf t = PC.creating ∨ s.pcOf t = PC.initializing
  done_val : ∀ t v, s.pcOf t = PC.done v → v = s.instanceRef ∧ v ≠ none
  creating_none : ∀ t, s.pcOf t = PC.creating → s.instanceRef = none

/-! ### Auxiliary predicates about store states -/

/-- All user rows carry pairwise distinct handles (the UNIQUE column). -/
def HandlesNodup (db : DB) : Prop :=
  db.users.Pairwise (fun a b => a.handle ≠ b.handle)

/-- Every user row's `solved_problems` text deserializes to a list whose
length is the stored `solved_count`. -/
def SolvedInv (db : DB) : Prop :=
  ∀ u ∈ db.users, ∃ l, jsonLoadsIntList u.solved_problems = some l ∧
    u.solved_count = (l.length : Int)

/-- The operation is not an `add_user` call with the empty-string handle. -/
def Op.nonEmptyHandleArg : Op → Prop
  | .addUser h _ => h ≠ ""
  | _ => True

/-! ### Round-trip lemmas for the serializer -/

theorem digitChar_isDigit {d : Nat} (h : d < 10) : (digitChar d).isDigit = true := by
  interval_cases d <;> decide

theorem digitChar_val {d : Nat} (h : d < 10) : (digitChar d).toNat - 48 = d := by
  interval_cases d <;> decide

theorem natToDigits_ne_nil (n : Nat) : natToDigits n ≠ [] := by
  rw [natToDigits]
  split
  · simp
  · simp

theorem natToDigits_all_digits (n : Nat) : ∀ c ∈ natToDigits n, c.isDigit = true := by
  induction n using Nat.strong_induction_on with
  | _ n ih =>
    rw [natToDigits]
    split
    · intro c hc
      simp at hc
      subst hc
      exact digitChar_isDigit (by omega)
    · intro c hc
      rcases List.mem_append.mp hc with h1 | h1
      · exact ih (n / 10) (Nat.div_lt_self (by omega) (by omega)) c h1
      · simp at h1
        subst h1
        exact digitChar_isDigit (Nat.mod_lt _ (by omega))

theorem parseNatAux_digits (ds : List Char) (hds : ∀ c ∈ ds, c.isDigit = true) :
    ∀ rest acc, (∀ c, rest.head? = some c → c.isDigit = false) →
      parseNatAux (ds ++ rest) acc =
        (ds.foldl (fun a c => a * 10 + (c.toNat - 48)) acc, rest) := by
  induction ds with
  | nil =>
    intro rest acc hrest
    cases rest with
    | nil => simp [parseNatAux]
    | cons c cs =>
      simp only [List.nil_append, parseNatAux, List.foldl_nil]
      rw [hrest c rfl]
      simp
  | cons d ds ih =>
    intro rest acc hrest
    have hd : d.isDigit = true := hds d (by simp)
    simp only [List.cons_append, parseNatAux, hd, if_true, List.foldl_cons]
    exact ih (fun c hc => hds c (by simp [hc])) rest _ hrest

theorem natToDigits_foldl (n : Nat) :
    ∀ acc, (natToDigits n).foldl (fun a c => a * 10 + (c.toNat - 48)) acc =
      acc * 10 ^ (natToDigits n).length + n := by
  induction n using Nat.strong_induction_on with
  | _ n ih =>
    intro acc
    rw [natToDigits]
    split
    · next h =>
      simp only [List.foldl_cons, List.foldl_nil, List.length_cons, List.length_nil,
        digitChar_val h, Nat.zero_add, pow_one]
    · next h =>
      rw [List.foldl_append, List.length_append]
      rw [ih (n / 10) (Nat.div_lt_self (by omega) (by omega)) acc]
      simp only [List.foldl_cons, List.foldl_nil, List.length_cons, List.length_nil]
      rw [digitChar_val (Nat.mod_lt _ (by omega))]
      rw [pow_succ]
      have hdm : 10 * (n / 10) + n % 10 = n := Nat.div_add_mod n 10
      ring_nf
      omega

theorem parseNat_natToDigits (n : Nat) (rest : List Char)
    (hrest : ∀ c, rest.head? = some c → c.isDigit = false) :
    parseNat (natToDigits n ++ rest) = some (n, rest) := by
  obtain ⟨d, ds, hds⟩ : ∃ d ds, natToDigits n = d :: ds := by
    cases h : natToDigits n with
    | nil => exact absurd h (natToDigits_ne_nil n)
    | cons d ds => exact ⟨d, ds, rfl⟩
  have hall := natToDigits_all_digits n
  rw [hds] at hall ⊢
  have hd : d.isDigit = true := hall d (by simp)
  simp only [List.cons_append, parseNat, hd, if_true]
  rw [parseNatAux_digits ds (fun c hc => hall c (by simp [hc])) rest _ hrest]
  have hfold := natToDigits_foldl n 0
  rw [hds] at hfold
  simp only [List.foldl_cons, Nat.zero_mul, Nat.zero_add] at hfold
  rw [hfold]

theorem intToChars_ne_nil (i : Int) : intToChars i ≠ [] := by
  unfold intToChars
  split
  · simp
  · exact natToDigits_ne_nil _

theorem parseInt_intToChars (i : Int) (rest : List Char)
    (hrest : ∀ c, rest.head? = some c → c.isDigit = false) :
    parseInt (intToChars i ++ rest) = some (i, rest) := by
  by_cases hi : i < 0
  · rw [intToChars, if_pos hi]
    simp only [List.cons_append, parseInt, if_pos rfl]
    rw [parseNat_natToDigits i.natAbs rest hrest]
    have hv : -(i.natAbs : Int) = i := by omega
    simp [Option.map_some', hv]
    rw [abs_of_neg hi, neg_neg]
  · rw [intToChars, if_neg hi]
    obtain ⟨d, ds, hds⟩ : ∃ d ds, natToDigits i.toNat = d :: ds := by
      cases h : natToDigits i.toNat with
      | nil => exact absurd h (natToDigits_ne_nil _)
      | cons d ds => exact ⟨d, ds, rfl⟩
    have hd : d.isDigit = true := by
      have := natToDigits_all_digits i.toNat
      rw [hds] at this
      exact this d (by simp)
    have hdne : ¬ d = '-' := by
      intro hcon
      rw [hcon] at hd
      exact absurd hd (by decide)
    rw [hds]
    simp only [List.cons_append, parseInt, if_neg hdne]
    rw [← List.cons_append, ← hds, parseNat_natToDigits i.toNat rest hrest]
    have hv : (i.toNat : Int) = i := Int.toNat_of_nonneg (not_lt.mp hi)
    simp only [Option.map_some', hv]

theorem parseItems_encodeList (xs : List Int) :
    ∀ (x : Int) (fuel : Nat) (rest : List Char), xs.length < fuel →
      parseItems fuel (encodeList (x :: xs) ++ ']' :: rest) = some (x :: xs, rest) := by
  induction xs with
  | nil =>
    intro x fuel rest hfuel
    obtain ⟨f, rfl⟩ : ∃ f, fuel = f + 1 := ⟨fuel - 1, by omega⟩
    simp only [encodeList, parseItems]
    rw [parseInt_intToChars x (']' :: rest) (by intro c hc; simp at hc; rw [← hc]; decide)]
    simp
  | cons y ys ih =>
    intro x fuel rest hfuel
    obtain ⟨f, rfl⟩ : ∃ f, fuel = f + 1 := ⟨fuel - 1, by omega⟩
    simp only [encodeList, parseItems]
    rw [List.append_assoc, List.cons_append, List.cons_append]
    rw [parseInt_intToChars x _ (by intro c hc; simp at hc; rw [← hc]; decide)]
    simp only [List.length_cons] at hfuel
    simp [ih y f rest (by omega)]

theorem encodeList_cons_ne_nil (x : Int) (xs : List Int) : encodeList (x :: xs) ≠ [] := by
  cases xs with
  | nil => exact intToChars_ne_nil x
  | cons y ys =>
    simp only [encodeList]
    intro hcon
    exact intToChars_ne_nil x (List.append_eq_nil.mp hcon).1

/-- Round trip: decoding an encoded integer list yields the list back,
order and multiplicity included (`json.loads(json.dumps(ps)) == ps`). -/
theorem jsonLoads_jsonDumps (ps : List Int) :
    jsonLoadsIntList (jsonDumpsIntList ps) = some ps := by
  cases ps with
  | nil => rfl
  | cons x xs =>
    show jsonLoadsIntList ⟨'[' :: (encodeList (x :: xs) ++ [']'])⟩ = some (x :: xs)
    rw [jsonLoadsIntList]
    simp only []
    rw [if_neg ?hne]
    case hne =>
      intro hcon
      have := congrArg List.length hcon
      simp at this
      exact encodeList_cons_ne_nil x xs this
    rw [show encodeList (x :: xs) ++ [']'] = encodeList (x :: xs) ++ ']' :: [] from rfl]
    rw [parseItems_encodeList xs x _ [] ?hlen]
    case hlen =>
      have h1 : 1 ≤ (encodeList (x :: xs)).length := by
        have := encodeList_cons_ne_nil x xs
        cases h : encodeList (x :: xs) with
        | nil => exact absurd h this
        | cons c cs => simp
      have h2 : xs.length ≤ (encodeList (x :: xs)).length := by
        clear h1
        induction xs generalizing x with
        | nil => simp
        | cons y ys ih =>
          simp only [encodeList, List.length_append, List.length_cons]
          have := ih y
          simp at this ⊢
          omega
      simp only [List.length_append, List.length_cons, List.length_nil]
      omega


/-! ### Reachability and invariants of the store -/

theorem applyOp_addUser_pos (db : DB) (h : String) (now : Nat)
    (hdup : db.users.any (fun u => u.handle = h) = true) :
    applyOp db (.addUser h now) = db := by
  simp [applyOp, runOp, DB.add_user, hdup]

theorem applyOp_addUser_neg (db : DB) (h : String) (now : Nat)
    (hdup : db.users.any (fun u => u.handle = h) = false) :
    applyOp db (.addUser h now) = { db with users := db.users ++
      [{ id := db.users.length + 1, handle := h, solved_count := 0,
         solved_problems := jsonDumpsIntList [], last_check_time := now,
         last_update_time := now }] } := by
  simp [applyOp, runOp, DB.add_user, hdup]

theorem applyOp_addServer (db : DB) (n : String) :
    applyOp db (.addServer n) = db.add_server n := rfl

theorem applyOp_addChannel (db : DB) (n : String) (sid : Int) :
    applyOp db (.addChannel n sid) = db.add_channel n sid := rfl

theorem applyOp_map_pos (db : DB) (h : String) (cid sid : Int) (uid : Nat)
    (huid : db.get_user_id_by_handle h = some uid) :
    applyOp db (.mapUserToChannel h cid sid) = { db with mappings := db.mappings ++
      [{ id := db.mappings.length + 1, user_id := uid,
         channel_id := cid, server_id := sid }] } := by
  simp [applyOp, runOp, DB.map_user_to_channel, huid]

theorem applyOp_map_neg (db : DB) (h : String) (cid sid : Int)
    (huid : db.get_user_id_by_handle h = none) :
    applyOp db (.mapUserToChannel h cid sid) = db := by
  simp [applyOp, runOp, DB.map_user_to_channel, huid]

theorem applyOp_update (db : DB) (h : String) (ps : List Int) (now : Nat) :
    applyOp db (.updateSolved h ps now) = db.update_user_solved_problems h ps now := rfl

theorem reachable_induction (P : DB → Prop) (h0 : P DB.empty)
    (hstep : ∀ db op, P db → P (applyOp db op)) :
    ∀ db, Reachable db → P db := by
  rintro db ⟨ops, rfl⟩
  show P (ops.foldl applyOp DB.empty)
  suffices hgen : ∀ start, P start → P (ops.foldl applyOp start) from hgen DB.empty h0
  induction ops with
  | nil => intro start hs; exact hs
  | cons op ops ih => intro start hs; exact ih _ (hstep start op hs)

theorem reachable_handlesNodup : ∀ db, Reachable db → HandlesNodup db := by
  refine reachable_induction HandlesNodup (by simp [HandlesNodup, DB.empty]) ?_
  intro db op hP
  cases op with
  | addUser h now =>
    by_cases hdup : db.users.any (fun u => u.handle = h) = true
    · rw [applyOp_addUser_pos db h now hdup]; exact hP
    · rw [applyOp_addUser_neg db h now (by simpa using hdup)]
      unfold HandlesNodup at hP ⊢
      rw [List.pairwise_append]
      refine ⟨hP, by simp, ?_⟩
      intro a ha b hb
      simp only [List.mem_singleton] at hb
      subst hb
      simp only [List.any_eq_true, decide_eq_true_eq, not_exists, not_and] at hdup
      simpa using hdup a ha
  | addServer n => exact hP
  | addChannel n sid => exact hP
  | mapUserToChannel h cid sid =>
    cases huid : db.get_user_id_by_handle h with
    | some uid => rw [applyOp_map_pos db h cid sid uid huid]; exact hP
    | none => rw [applyOp_map_neg db h cid sid huid]; exact hP
  | updateSolved h ps now =>
    rw [applyOp_update]
    unfold HandlesNodup at hP ⊢
    unfold DB.update_user_solved_problems
    simp only [List.pairwise_map]
    refine hP.imp (fun {a b} hab => ?_)
    split <;> split <;> simp_all

theorem reachable_solvedInv : ∀ db, Reachable db → SolvedInv db := by
  refine reachable_induction SolvedInv (by intro u hu; simp [DB.empty] at hu) ?_
  intro db op hP
  cases op with
  | addUser h now =>
    by_cases hdup : db.users.any (fun u => u.handle = h) = true
    · rw [applyOp_addUser_pos db h now hdup]; exact hP
    · rw [applyOp_addUser_neg db h now (by simpa using hdup)]
      intro u hu
      rcases List.mem_append.mp hu with h1 | h1
      · exact hP u h1
      · simp only [List.mem_singleton] at h1
        subst h1
        exact ⟨[], jsonLoads_jsonDumps [], by simp⟩
  | addServer n => exact hP
  | addChannel n sid => exact hP
  | mapUserToChannel h cid sid =>
    cases huid : db.get_user_id_by_handle h with
    | some uid => rw [applyOp_map_pos db h cid sid uid huid]; exact hP
    | none => rw [applyOp_map_neg db h cid sid huid]; exact hP
  | updateSolved h ps now =>
    rw [applyOp_update]
    intro u hu
    rcases List.mem_map.mp hu with ⟨u0, hu0, rfl⟩
    by_cases hh : u0.handle = h
    · rw [if_pos hh]
      exact ⟨ps, jsonLoads_jsonDumps ps, by simp⟩
    · rw [if_neg hh]
      exact hP u0 hu0

/-- C2: in every reachable store state, every `Users` row's
`solved_count` equals the length of the list deserialized from its
`solved_problems` column. -/
theorem C2_solved_count_matches (db : DB) (hdb : Reachable db) :
    ∀ u ∈ db.users, ∃ l, jsonLoadsIntList u.solved_problems = some l ∧
      u.solved_count = (l.length : Int) :=
  reachable_solvedInv db hdb

theorem C2_solved_count_matches_witness :
    ∃ l, jsonLoadsIntList ({ id := 1, handle := "alice", solved_count := 3, solved_problems := jsonDumpsIntList [1, 2, 3], last_check_time := 0, last_update_time := 1 } : UserRow).solved_problems = some l ∧
      ({ id := 1, handle := "alice", solved_count := 3, solved_problems := jsonDumpsIntList [1, 2, 3], last_check_time := 0, last_update_time := 1 } : UserRow).solved_count = (l.length : Int) :=
  C2_solved_count_matches (runTrace [Op.addUser "alice" 0, Op.updateSolved "alice" [1, 2, 3] 1])
    ⟨[Op.addUser "alice" 0, Op.updateSolved "alice" [1, 2, 3] 1], rfl⟩
    _ (List.Mem.head _)

theorem countP_handle_eq_one (l : List UserRow) (h : String)
    (hnd : l.Pairwise (fun a b => a.handle ≠ b.handle))
    (hex : ∃ u ∈ l, u.handle = h) :
    l.countP (fun u => u.handle == h) = 1 := by
  induction l with
  | nil => simp at hex
  | cons a l ih =>
    rcases hex with ⟨u, hu, hh⟩
    rw [List.countP_cons]
    rcases List.mem_cons.mp hu with rfl | hmem
    · have hzero : l.countP (fun x => x.handle == h) = 0 := by
        rw [List.countP_eq_zero]
        intro b hb
        have hne := (List.pairwise_cons.mp hnd).1 b hb
        simp only [beq_iff_eq]
        intro hbh
        exact hne (hh.trans hbh.symm)
      rw [hzero]
      simp [hh]
    · have hane : ¬ (a.handle == h) = true := by
        have hne := (List.pairwise_cons.mp hnd).1 u hmem
        simp only [beq_iff_eq]
        intro hcon
        exact hne (by rw [hcon, hh])
      rw [ih (List.pairwise_cons.mp hnd).2 ⟨u, hmem, hh⟩]
      simp [hane]

/-- C3: when a user row with the handle already exists, `add_user` fails
with the UNIQUE-constraint violation, the store is unchanged by the
failed call, and exactly one row with that handle exists. -/
theorem C3_duplicate_add_fails (db : DB) (h : String) (now : Nat)
    (hdb : Reachable db) (hex : ∃ u ∈ db.users, u.handle = h) :
    db.add_user h now = .error .integrityError ∧
    applyOp db (.addUser h now) = db ∧
    db.users.countP (fun u => u.handle == h) = 1 := by
  have hnd := reachable_handlesNodup db hdb
  have hany : db.users.any (fun u => u.handle = h) = true := by
    rcases hex with ⟨u, hu, hh⟩
    exact List.any_eq_true.mpr ⟨u, hu, by simp [hh]⟩
  refine ⟨?_, applyOp_addUser_pos db h now hany,
    countP_handle_eq_one db.users h hnd hex⟩
  simp [DB.add_user, hany]

theorem C3_duplicate_add_fails_witness :
    (runTrace [Op.addUser "alice" 0]).add_user "alice" 5 = .error .integrityError ∧
    applyOp (runTrace [Op.addUser "alice" 0]) (.addUser "alice" 5) =
      runTrace [Op.addUser "alice" 0] ∧
    (runTrace [Op.addUser "alice" 0]).users.countP (fun u => u.handle == "alice") = 1 :=
  C3_duplicate_add_fails _ "alice" 5 ⟨[Op.addUser "alice" 0], rfl⟩ (by decide)

/-- C4: updating an existing user's solved problems stores
`solved_count = ps.length` and a text that deserializes back to exactly
`ps`; encode-then-decode is the identity on integer lists. -/
theorem C4_update_roundtrip (db : DB) (h : String) (ps : List Int) (now : Nat)
    (hex : ∃ u ∈ db.users, u.handle = h) :
    (∃ u ∈ (db.update_user_solved_problems h ps now).users,
      u.handle = h ∧ u.solved_count = (ps.length : Int) ∧
      jsonLoadsIntList u.solved_problems = some ps) ∧
    ∀ qs : List Int, jsonLoadsIntList (jsonDumpsIntList qs) = some qs := by
  refine ⟨?_, jsonLoads_jsonDumps⟩
  rcases hex with ⟨u, hu, hh⟩
  unfold DB.update_user_solved_problems
  refine ⟨_, List.mem_map.mpr ⟨u, hu, rfl⟩, ?_⟩
  simp [hh, jsonLoads_jsonDumps]

theorem C4_update_roundtrip_witness :
    (∃ u ∈ ((runTrace [Op.addUser "bob" 0]).update_user_solved_problems
        "bob" [1, 2, 3] 1).users,
      u.handle = "bob" ∧ u.solved_count = ((3 : Nat) : Int) ∧
      jsonLoadsIntList u.solved_problems = some [1, 2, 3]) ∧
    ∀ qs : List Int, jsonLoadsIntList (jsonDumpsIntList qs) = some qs :=
  C4_update_roundtrip _ "bob" [1, 2, 3] 1 (by decide)

/-- C5: `map_user_to_channel` raises the user-not-found error exactly
when no user row carries the handle, and a failing call leaves the
store (in particular `UserChannelMapping`) unchanged. -/
theorem C5_map_not_found (db : DB) (h : String) (cid sid : Int) :
    (db.map_user_to_channel h cid sid = .error (.userNotFound h) ↔
      ∀ u ∈ db.users, u.handle ≠ h) ∧
    ((∀ u ∈ db.users, u.handle ≠ h) → applyOp db (.mapUserToChannel h cid sid) = db) := by
  have hiff : db.get_user_id_by_handle h = none ↔ ∀ u ∈ db.users, u.handle ≠ h := by
    unfold DB.get_user_id_by_handle
    rw [Option.map_eq_none', List.find?_eq_none]
    simp
  constructor
  · constructor
    · intro herr
      cases huid : db.get_user_id_by_handle h with
      | none => exact hiff.mp huid
      | some uid =>
        unfold DB.map_user_to_channel at herr
        rw [huid] at herr
        simp at herr
    · intro hno
      unfold DB.map_user_to_channel
      rw [hiff.mpr hno]
  · intro hno
    exact applyOp_map_neg db h cid sid (hiff.mpr hno)

/-- C6: `update_user_solved_problems` on an unknown handle completes
without error and leaves the whole store unchanged. -/
theorem C6_update_unknown_silent (db : DB) (h : String) (ps : List Int) (now : Nat)
    (hno : ∀ u ∈ db.users, u.handle ≠ h) :
    runOp db (.updateSolved h ps now) = .ok db ∧
    db.update_user_solved_problems h ps now = db := by
  have key : ∀ l : List UserRow, (∀ u ∈ l, u.handle ≠ h) →
      l.map (fun u => if u.handle = h then
        { u with solved_count := (ps.length : Int),
                 solved_problems := jsonDumpsIntList ps,
                 last_update_time := now }
      else u) = l := by
    intro l hl
    induction l with
    | nil => rfl
    | cons a l ih =>
      simp only [List.map_cons]
      rw [if_neg (hl a (by simp)), ih (fun u hu => hl u (by simp [hu]))]
  have hmap : db.update_user_solved_problems h ps now = db := by
    unfold DB.update_user_solved_problems
    rw [key db.users hno]
  exact ⟨by show Except.ok (db.update_user_solved_problems h ps now) = _; rw [hmap], hmap⟩

theorem C6_update_unknown_silent_witness :
    runOp (runTrace [Op.addUser "alice" 0]) (.updateSolved "ghost" [1] 2) =
      .ok (runTrace [Op.addUser "alice" 0]) ∧
    (runTrace [Op.addUser "alice" 0]).update_user_solved_problems "ghost" [1] 2 =
      runTrace [Op.addUser "alice" 0] :=
  C6_update_unknown_silent _ "ghost" [1] 2 (by decide)

/-- C7: `get_user_channels` returns exactly the tuples of the four-way
inner join for the handle (membership characterization); it is the empty
sequence when the handle matches no user or the user has no membership
rows, and it is a total function (never raises). -/
theorem C7_get_user_channels_join (db : DB) (h : String) :
    (∀ t : Nat × String × Nat × String, t ∈ db.get_user_channels h ↔
      ∃ m ∈ db.mappings, ∃ u ∈ db.users, ∃ c ∈ db.channels, ∃ s ∈ db.servers,
        u.handle = h ∧ m.user_id = u.id ∧ m.channel_id = (c.id : Int) ∧
        m.server_id = (s.id : Int) ∧ t = (c.id, c.name, s.id, s.name)) ∧
    ((∀ u ∈ db.users, u.handle ≠ h) → db.get_user_channels h = []) ∧
    ((∀ m ∈ db.mappings, ∀ u ∈ db.users, u.handle = h → m.user_id ≠ u.id) →
      db.get_user_channels h = []) := by
  have hmem : ∀ t : Nat × String × Nat × String, t ∈ db.get_user_channels h ↔
      ∃ m ∈ db.mappings, ∃ u ∈ db.users, ∃ c ∈ db.channels, ∃ s ∈ db.servers,
        u.handle = h ∧ m.user_id = u.id ∧ m.channel_id = (c.id : Int) ∧
        m.server_id = (s.id : Int) ∧ t = (c.id, c.name, s.id, s.name) := by
    intro t
    unfold DB.get_user_channels
    simp only [List.mem_flatMap, List.mem_filterMap]
    constructor
    · rintro ⟨m, hm, u, hu, c, hc, s, hs, hif⟩
      split at hif
      · next hcond =>
        obtain ⟨h1, h2, h3, h4⟩ := hcond
        exact ⟨m, hm, u, hu, c, hc, s, hs, h4, h1, h2, h3, (Option.some.inj hif).symm⟩
      · exact absurd hif (by simp)
    · rintro ⟨m, hm, u, hu, c, hc, s, hs, hh, h1, h2, h3, rfl⟩
      exact ⟨m, hm, u, hu, c, hc, s, hs, by rw [if_pos ⟨h1, h2, h3, hh⟩]⟩
  refine ⟨hmem, ?_, ?_⟩
  · intro hno
    rw [List.eq_nil_iff_forall_not_mem]
    intro t ht
    rcases (hmem t).mp ht with ⟨m, _, u, hu, c, _, s, _, hh, _⟩
    exact hno u hu hh
  · intro hno
    rw [List.eq_nil_iff_forall_not_mem]
    intro t ht
    rcases (hmem t).mp ht with ⟨m, hm, u, hu, c, _, s, _, hh, h1, _⟩
    exact hno m hm u hu hh h1

/-- C8: the solved-problems update touches only `solved_count`,
`solved_problems` and `last_update_time` of rows matching the handle:
`Servers`, `Channels` and `UserChannelMapping` are untouched, the user
list keeps its length, every row keeps its `id`, `handle` and
`last_check_time` at its position, and rows not matching the handle are
entirely unchanged. -/
theorem C8_update_frame (db : DB) (h : String) (ps : List Int) (now : Nat) :
    (db.update_user_solved_problems h ps now).servers = db.servers ∧
    (db.update_user_solved_problems h ps now).channels = db.channels ∧
    (db.update_user_solved_problems h ps now).mappings = db.mappings ∧
    (db.update_user_solved_problems h ps now).users.length = db.users.length ∧
    (∀ i : Nat, ((db.update_user_solved_problems h ps now).users[i]?).map
        (fun u => (u.id, u.handle, u.last_check_time)) =
      (db.users[i]?).map (fun u => (u.id, u.handle, u.last_check_time))) ∧
    (∀ i : Nat, ∀ u : UserRow, db.users[i]? = some u → u.handle ≠ h →
      (db.update_user_solved_problems h ps now).users[i]? = some u) := by
  unfold DB.update_user_solved_problems
  refine ⟨rfl, rfl, rfl, by simp, ?_, ?_⟩
  · intro i
    rw [List.getElem?_map]
    cases db.users[i]? with
    | none => rfl
    | some u =>
      simp only [Option.map_some']
      by_cases hh : u.handle = h
      · rw [if_pos hh]
      · rw [if_neg hh]
  · intro i u hu hne
    rw [List.getElem?_map, hu]
    simp only [Option.map_some']
    rw [if_neg hne]

/-- C9 counterexample: `add_user` performs no non-emptiness check, so a
store holding a user whose handle is the empty string is reachable. -/
theorem C9_empty_handle_reachable :
    Reachable (runTrace [Op.addUser "" 0]) ∧
    ∃ u ∈ (runTrace [Op.addUser "" 0]).users, u.handle = "" :=
  ⟨⟨[Op.addUser "" 0], rfl⟩, by decide⟩

theorem foldl_nonempty_handles (ops : List Op) (hops : ∀ op ∈ ops, op.nonEmptyHandleArg) :
    ∀ start, (∀ u ∈ start.users, u.handle ≠ "") →
      ∀ u ∈ (ops.foldl applyOp start).users, u.handle ≠ "" := by
  induction ops with
  | nil => intro start hs; simpa using hs
  | cons op ops ih =>
    intro start hs
    simp only [List.foldl_cons]
    refine ih (fun op2 h2 => hops op2 (List.mem_cons_of_mem _ h2)) _ ?_
    have hop := hops op (List.mem_cons_self op ops)
    cases op with
    | addUser h now =>
      by_cases hdup : start.users.any (fun u => u.handle = h) = true
      · rw [applyOp_addUser_pos _ _ _ hdup]; exact hs
      · rw [applyOp_addUser_neg _ _ _ (by simpa using hdup)]
        intro u hu
        rcases List.mem_append.mp hu with h1 | h1
        · exact hs u h1
        · simp only [List.mem_singleton] at h1
          subst h1
          exact hop
    | addServer n => exact hs
    | addChannel n sid => exact hs
    | mapUserToChannel h cid sid =>
      cases huid : start.get_user_id_by_handle h with
      | some uid => rw [applyOp_map_pos _ _ _ _ _ huid]; exact hs
      | none => rw [applyOp_map_neg _ _ _ _ huid]; exact hs
    | updateSolved h ps now =>
      rw [applyOp_update]
      intro u hu
      rcases List.mem_map.mp hu with ⟨u0, hu0, rfl⟩
      by_cases hh : u0.handle = h
      · rw [if_pos hh]; exact hs u0 hu0
      · rw [if_neg hh]; exact hs u0 hu0

/-- C9 amended: the store does not itself enforce non-emptiness of
handles; as long as every `add_user` call in the trace passes a
non-empty handle, every stored handle is non-empty. -/
theorem C9_amended_nonempty_handles (ops : List Op)
    (hops : ∀ op ∈ ops, op.nonEmptyHandleArg) :
    ∀ u ∈ (runTrace ops).users, u.handle ≠ "" :=
  foldl_nonempty_handles ops hops DB.empty (by simp [DB.empty])

theorem C9_amended_nonempty_handles_witness :
    ({ id := 1, handle := "alice", solved_count := 0, solved_problems := jsonDumpsIntList [], last_check_time := 0, last_update_time := 0 } : UserRow).handle ≠ "" :=
  C9_amended_nonempty_handles [Op.addUser "alice" 0]
    (by
      intro op hop
      simp only [List.mem_singleton] at hop
      subst hop
      simp [Op.nonEmptyHandleArg])
    _ (List.Mem.head _)

/-- C10: a membership row whose `channel_id` (or `server_id`) matches no
`Channels` (or `Servers`) row is insertable — `map_user_to_channel`
checks only the user — and `get_user_channels` silently omits it: the
query result for every handle is exactly what it was before the
dangling insertion, with no partial tuple and no error. -/
theorem C10_dangling_membership (db : DB) (h : String) (cid sid : Int)
    (hex : ∃ u ∈ db.users, u.handle = h)
    (hdangling : (∀ c ∈ db.channels, (c.id : Int) ≠ cid) ∨
                 (∀ s ∈ db.servers, (s.id : Int) ≠ sid)) :
    ∃ db2, db.map_user_to_channel h cid sid = .ok db2 ∧
      db2.mappings.length = db.mappings.length + 1 ∧
      ∀ h2, db2.get_user_channels h2 = db.get_user_channels h2 := by
  obtain ⟨uid, huid⟩ : ∃ uid, db.get_user_id_by_handle h = some uid := by
    rcases hex with ⟨u, hu, hh⟩
    unfold DB.get_user_id_by_handle
    cases hfind : db.users.find? (fun u => u.handle = h) with
    | some v => exact ⟨v.id, by simp [hfind]⟩
    | none =>
      exfalso
      have := List.find?_eq_none.mp hfind u hu
      simp [hh] at this
  refine ⟨{ db with mappings := db.mappings ++
      [{ id := db.mappings.length + 1, user_id := uid,
         channel_id := cid, server_id := sid }] },
    by unfold DB.map_user_to_channel; rw [huid], by simp, ?_⟩
  intro h2
  unfold DB.get_user_channels
  simp only [List.flatMap_append, List.flatMap_cons, List.flatMap_nil, List.append_nil]
  have hnil : db.users.flatMap (fun u => db.channels.flatMap (fun c =>
      db.servers.filterMap (fun s =>
        if uid = u.id ∧ cid = (c.id : Int) ∧ sid = (s.id : Int) ∧ u.handle = h2 then
          some (c.id, c.name, s.id, s.name)
        else none))) = [] := by
    rw [List.flatMap_eq_nil_iff]
    intro u _
    rw [List.flatMap_eq_nil_iff]
    intro c hc
    rw [List.filterMap_eq_nil_iff]
    intro s hs
    rcases hdangling with hd | hd
    · rw [if_neg]
      rintro ⟨-, h2', -, -⟩
      exact hd c hc h2'.symm
    · rw [if_neg]
      rintro ⟨-, -, h3', -⟩
      exact hd s hs h3'.symm
  rw [hnil, List.append_nil]

theorem C10_dangling_membership_witness :
    ∃ db2, (runTrace [Op.addUser "carol" 0]).map_user_to_channel "carol" 7 9 = .ok db2 ∧
      db2.mappings.length = (runTrace [Op.addUser "carol" 0]).mappings.length + 1 ∧
      ∀ h2, db2.get_user_channels h2 = (runTrace [Op.addUser "carol" 0]).get_user_channels h2 :=
  C10_dangling_membership _ "carol" 7 9 (by decide) (Or.inl (by decide))

/-! ### The double-checked-locking invariant -/

@[simp] theorem setPC_pcOf (s : SingletonState) (t : Nat) (pc : PC) (u : Nat) :
    (s.setPC t pc).pcOf u = if u = t then pc else s.pcOf u := rfl

@[simp] theorem setPC_instanceRef (s : SingletonState) (t : Nat) (pc : PC) :
    (s.setPC t pc).instanceRef = s.instanceRef := rfl

@[simp] theorem setPC_dcl (s : SingletonState) (t : Nat) (pc : PC) :
    (s.setPC t pc).dcl = s.dcl := rfl

@[simp] theorem setPC_lockHolder (s : SingletonState) (t : Nat) (pc : PC) :
    (s.setPC t pc).lockHolder = s.lockHolder := rfl

@[simp] theorem setPC_initCount (s : SingletonState) (t : Nat) (pc : PC) :
    (s.setPC t pc).initCount = s.initCount := rfl

@[simp] theorem setPC_nextId (s : SingletonState) (t : Nat) (pc : PC) :
    (s.setPC t pc).nextId = s.nextId := rfl

@[simp] theorem setPC_numThreads (s : SingletonState) (t : Nat) (pc : PC) :
    (s.setPC t pc).numThreads = s.numThreads := rfl

theorem sreachable_inv (s : SingletonState) (hs : SReachable s) : SInv s := by
  induction hs with
  | init n =>
    refine ⟨?_, ?_, ?_, ?_, ?_, ?_, ?_, ?_, ?_, ?_⟩ <;>
      simp [initialState, InRegion]
  | @step s1 s2 hr hstep ih =>
    obtain ⟨ihF, ihRL, ihDI, ihIR, ihNC, ihCL, ihCN, ihIP, ihDV, ihC0⟩ := ih
    cases hstep with
    | checkTrue t ht hpc h1 h2 =>
      refine ⟨?_, ?_, ?_, ?_, ?_, ?_, ?_, ?_, ?_, ?_⟩
      · intro u hu
        simp only [setPC_numThreads] at hu
        have hut : u ≠ t := by omega
        simp only [setPC_pcOf, if_neg hut]
        exact ihF u hu
      · intro u hreg
        rcases eq_or_ne u t with rfl | hut
        · simp only [setPC_pcOf, if_pos rfl] at hreg
          simp [InRegion] at hreg
        · simp only [setPC_pcOf, if_neg hut] at hreg
          simpa using ihRL u hreg
      · intro hd
        simp only [setPC_dcl] at hd
        simpa using ihDI hd
      · intro u hu
        rcases eq_or_ne u t with rfl | hut
        · simp only [setPC_pcOf, if_pos rfl] at hu
          simp at hu
        · simp only [setPC_pcOf, if_neg hut] at hu
          simpa using ihIR u hu
      · intro hn
        simp only [setPC_instanceRef] at hn
        simpa using ihNC hn
      · simpa using ihCL
      · intro hc u
        simp only [setPC_initCount] at hc
        rcases eq_or_ne u t with rfl | hut
        · simp
        · simp only [setPC_pcOf, if_neg hut]
          exact ihCN hc u
      · intro hin
        simp only [setPC_instanceRef] at hin
        exact absurd h1 hin
      · intro u v hu
        rcases eq_or_ne u t with rfl | hut
        · simp only [setPC_pcOf, if_pos rfl] at hu
          cases hu
        · simp only [setPC_pcOf, if_neg hut] at hu
          simpa using ihDV u v hu
      · intro u hu
        rcases eq_or_ne u t with rfl | hut
        · simp only [setPC_pcOf, if_pos rfl] at hu
          cases hu
        · simp only [setPC_pcOf, if_neg hut] at hu
          simpa using ihC0 u hu
    | checkFalse t ht hpc h =>
      have hinst : s1.instanceRef ≠ none := by
        by_cases hi : s1.instanceRef = none
        · cases hdc : s1.dcl with
          | false => exact absurd ⟨hi, hdc⟩ h
          | true => exact ihDI hdc
        · exact hi
      refine ⟨?_, ?_, ?_, ?_, ?_, ?_, ?_, ?_, ?_, ?_⟩
      · intro u hu
        simp only [setPC_numThreads] at hu
        have hut : u ≠ t := by omega
        simp only [setPC_pcOf, if_neg hut]
        exact ihF u hu
      · intro u hreg
        rcases eq_or_ne u t with rfl | hut
        · simp only [setPC_pcOf, if_pos rfl] at hreg
          simp [InRegion] at hreg
        · simp only [setPC_pcOf, if_neg hut] at hreg
          simpa using ihRL u hreg
      · intro hd
        simp only [setPC_dcl] at hd
        simpa using ihDI hd
      · intro u hu
        rcases eq_or_ne u t with rfl | hut
        · simpa using hinst
        · simp only [setPC_pcOf, if_neg hut] at hu
          simpa using ihIR u hu
      · intro hn
        simp only [setPC_instanceRef] at hn
        exact absurd hn hinst
      · simpa using ihCL
      · intro hc u
        simp only [setPC_initCount] at hc
        rcases eq_or_ne u t with rfl | hut
        · simp
        · simp only [setPC_pcOf, if_neg hut]
          exact ihCN hc u
      · intro hin
        rcases ihIP hinst with hc | ⟨u, hu⟩
        · exact Or.inl (by simpa using hc)
        · have hut : u ≠ t := by
            intro he
            subst he
            rw [hpc] at hu
            rcases hu with h2 | h2 <;> cases h2
          refine Or.inr ⟨u, ?_⟩
          simp only [setPC_pcOf, if_neg hut]
          exact hu
      · intro u v hu
        rcases eq_or_ne u t with rfl | hut
        · simp only [setPC_pcOf, if_pos rfl] at hu
          cases hu
        · simp only [setPC_pcOf, if_neg hut] at hu
          simpa using ihDV u v hu
      · intro u hu
        rcases eq_or_ne u t with rfl | hut
        · simp only [setPC_pcOf, if_pos rfl] at hu
          cases hu
        · simp only [setPC_pcOf, if_neg hut] at hu
          simpa using ihC0 u hu
    | acquire t ht hpc h =>
      refine ⟨?_, ?_, ?_, ?_, ?_, ?_, ?_, ?_, ?_, ?_⟩
      · intro u hu
        simp only [setPC_numThreads] at hu
        have hut : u ≠ t := by omega
        simp only [setPC_pcOf, if_neg hut]
        exact ihF u hu
      · intro u hreg
        rcases eq_or_ne u t with rfl | hut
        · simp
        · simp only [setPC_pcOf, if_neg hut] at hreg
          exfalso
          have h2 := ihRL u hreg
          rw [h] at h2
          cases h2
      · intro hd
        simp only [setPC_dcl] at hd
        simpa using ihDI hd
      · intro u hu
        rcases eq_or_ne u t with rfl | hut
        · simp only [setPC_pcOf, if_pos rfl] at hu
          simp at hu
        · simp only [setPC_pcOf, if_neg hut] at hu
          simpa using ihIR u hu
      · intro hn
        simp only [setPC_instanceRef] at hn
        simpa using ihNC hn
      · simpa using ihCL
      · intro hc u
        simp only [setPC_initCount] at hc
        rcases eq_or_ne u t with rfl | hut
        · simp
        · simp only [setPC_pcOf, if_neg hut]
          exact ihCN hc u
      · intro hin
        simp only [setPC_instanceRef] at hin
        rcases ihIP hin with hc | ⟨u, hu⟩
        · exact Or.inl (by simpa using hc)
        · have hut : u ≠ t := by
            intro he
            subst he
            rw [hpc] at hu
            rcases hu with h2 | h2 <;> cases h2
          refine Or.inr ⟨u, ?_⟩
          simp only [setPC_pcOf, if_neg hut]
          exact hu
      · intro u v hu
        rcases eq_or_ne u t with rfl | hut
        · simp only [setPC_pcOf, if_pos rfl] at hu
          cases hu
        · simp only [setPC_pcOf, if_neg hut] at hu
          simpa using ihDV u v hu
      · intro u hu
        rcases eq_or_ne u t with rfl | hut
        · simp only [setPC_pcOf, if_pos rfl] at hu
          cases hu
        · simp only [setPC_pcOf, if_neg hut] at hu
          simpa using ihC0 u hu
    | recheckTrue t ht hpc h =>
      refine ⟨?_, ?_, ?_, ?_, ?_, ?_, ?_, ?_, ?_, ?_⟩
      · intro u hu
        simp only [setPC_numThreads] at hu
        have hut : u ≠ t := by omega
        simp only [setPC_pcOf, if_neg hut]
        exact ihF u hu
      · intro u hreg
        rcases eq_or_ne u t with rfl | hut
        · simpa using ihRL u (by simp [InRegion, hpc])
        · simp only [setPC_pcOf, if_neg hut] at hreg
          simpa using ihRL u hreg
      · intro hd
        simp only [setPC_dcl] at hd
        exact absurd h (ihDI hd)
      · intro u hu
        rcases eq_or_ne u t with rfl | hut
        · simp only [setPC_pcOf, if_pos rfl] at hu
          simp at hu
        · simp only [setPC_pcOf, if_neg hut] at hu
          simpa using ihIR u hu
      · intro hn
        simpa using ihNC h
      · simpa using ihCL
      · intro hc
        exfalso
        simp only [setPC_initCount] at hc
        have := ihNC h
        omega
      · intro hin
        simp only [setPC_instanceRef] at hin
        exact absurd h hin
      · intro u v hu
        rcases eq_or_ne u t with rfl | hut
        · simp only [setPC_pcOf, if_pos rfl] at hu
          cases hu
        · simp only [setPC_pcOf, if_neg hut] at hu
          simpa using ihDV u v hu
      · intro u hu
        simpa using h
    | recheckFalse t ht hpc h =>
      refine ⟨?_, ?_, ?_, ?_, ?_, ?_, ?_, ?_, ?_, ?_⟩
      · intro u hu
        simp only [setPC_numThreads] at hu
        have hut : u ≠ t := by omega
        simp only [setPC_pcOf, if_neg hut]
        exact ihF u hu
      · intro u hreg
        rcases eq_or_ne u t with rfl | hut
        · simpa using ihRL u (by simp [InRegion, hpc])
        · simp only [setPC_pcOf, if_neg hut] at hreg
          simpa using ihRL u hreg
      · intro hd
        simp only [setPC_dcl] at hd
        simpa using ihDI hd
      · intro u hu
        rcases eq_or_ne u t with rfl | hut
        · simpa using h
        · simp only [setPC_pcOf, if_neg hut] at hu
          simpa using ihIR u hu
      · intro hn
        simp only [setPC_instanceRef] at hn
        exact absurd hn h
      · simpa using ihCL
      · intro hc u
        simp only [setPC_initCount] at hc
        rcases eq_or_ne u t with rfl | hut
        · simp
        · simp only [setPC_pcOf, if_neg hut]
          exact ihCN hc u
      · intro hin
        rcases ihIP h with hc | ⟨u, hu⟩
        · exact Or.inl (by simpa using hc)
        · have hut : u ≠ t := by
            intro he
            subst he
            rw [hpc] at hu
            rcases hu with h2 | h2 <;> cases h2
          refine Or.inr ⟨u, ?_⟩
          simp only [setPC_pcOf, if_neg hut]
          exact hu
      · intro u v hu
        rcases eq_or_ne u t with rfl | hut
        · simp only [setPC_pcOf, if_pos rfl] at hu
          cases hu
        · simp only [setPC_pcOf, if_neg hut] at hu
          simpa using ihDV u v hu
      · intro u hu
        rcases eq_or_ne u t with rfl | hut
        · simp only [setPC_pcOf, if_pos rfl] at hu
          cases hu
        · simp only [setPC_pcOf, if_neg hut] at hu
          exact absurd (ihC0 u hu) h
    | create t ht hpc =>
      refine ⟨?_, ?_, ?_, ?_, ?_, ?_, ?_, ?_, ?_, ?_⟩
      · intro u hu
        simp only [setPC_numThreads] at hu
        have hut : u ≠ t := by omega
        simp only [setPC_pcOf, if_neg hut]
        exact ihF u hu
      · intro u hreg
        rcases eq_or_ne u t with rfl | hut
        · simpa using ihRL u (by simp [InRegion, hpc])
        · simp only [setPC_pcOf, if_neg hut] at hreg
          simpa using ihRL u hreg
      · intro _
        simp
      · intro u _
        simp
      · intro hn
        simp at hn
      · simpa using ihCL
      · intro hc
        exact absurd hpc (ihCN (by simpa using hc) t).1
      · intro _
        refine Or.inr ⟨t, Or.inr ?_⟩
        simp
      · intro u v hu
        rcases eq_or_ne u t with rfl | hut
        · simp only [setPC_pcOf, if_pos rfl] at hu
          cases hu
        · simp only [setPC_pcOf, if_neg hut] at hu
          exfalso
          have hd := ihDV u v hu
          have h0 := ihC0 t hpc
          rw [h0] at hd
          exact hd.2 hd.1
      · intro u hu
        rcases eq_or_ne u t with rfl | hut
        · simp only [setPC_pcOf, if_pos rfl] at hu
          cases hu
        · simp only [setPC_pcOf, if_neg hut] at hu
          exfalso
          have hl1 := ihRL u (by simp [InRegion, hu])
          have hl2 := ihRL t (by simp [InRegion, hpc])
          rw [hl1] at hl2
          exact hut (Option.some.inj hl2)
    | runInit t ht hpc =>
      have hcount : s1.initCount = 0 := by
        have hc1 := ihCL
        have hc2 : s1.initCount ≠ 1 := fun hc => (ihCN hc t).2 hpc
        omega
      refine ⟨?_, ?_, ?_, ?_, ?_, ?_, ?_, ?_, ?_, ?_⟩
      · intro u hu
        simp only [setPC_numThreads] at hu
        have hut : u ≠ t := by omega
        simp only [setPC_pcOf, if_neg hut]
        exact ihF u hu
      · intro u hreg
        rcases eq_or_ne u t with rfl | hut
        · simpa using ihRL u (by simp [InRegion, hpc])
        · simp only [setPC_pcOf, if_neg hut] at hreg
          simpa using ihRL u hreg
      · intro hd
        simpa using ihDI (by simpa using hd)
      · intro u hu
        rcases eq_or_ne u t with rfl | hut
        · simpa using ihIR u (by simp [hpc])
        · simpa using ihIR u (by simpa only [setPC_pcOf, if_neg hut] using hu)
      · intro hn
        exact absurd (by simpa using hn) (ihIR t (by simp [hpc]))
      · show s1.initCount + 1 ≤ 1
        omega
      · intro hc u
        rcases eq_or_ne u t with rfl | hut
        · simp
        · refine ⟨?_, ?_⟩ <;>
          · simp only [setPC_pcOf, if_neg hut]
            intro hcr
            have hl1 := ihRL u (by simp [InRegion, hcr])
            have hl2 := ihRL t (by simp [InRegion, hpc])
            rw [hl1] at hl2
            exact hut (Option.some.inj hl2)
      · intro _
        refine Or.inl ?_
        show s1.initCount + 1 = 1
        omega
      · intro u v hu
        rcases eq_or_ne u t with rfl | hut
        · simp only [setPC_pcOf, if_pos rfl] at hu
          cases hu
        · simp only [setPC_pcOf, if_neg hut] at hu
          simpa using ihDV u v hu
      · intro u hu
        rcases eq_or_ne u t with rfl | hut
        · simp only [setPC_pcOf, if_pos rfl] at hu
          cases hu
        · simp only [setPC_pcOf, if_neg hut] at hu
          exact absurd (ihC0 u hu) (ihIR t (by simp [hpc]))
    | setDcl t ht hpc =>
      have hin : s1.instanceRef ≠ none := ihIR t (by simp [hpc])
      refine ⟨?_, ?_, ?_, ?_, ?_, ?_, ?_, ?_, ?_, ?_⟩
      · intro u hu
        simp only [setPC_numThreads] at hu
        have hut : u ≠ t := by omega
        simp only [setPC_pcOf, if_neg hut]
        exact ihF u hu
      · intro u hreg
        rcases eq_or_ne u t with rfl | hut
        · simpa using ihRL u (by simp [InRegion, hpc])
        · simp only [setPC_pcOf, if_neg hut] at hreg
          simpa using ihRL u hreg
      · intro _
        simpa using hin
      · intro u hu
        rcases eq_or_ne u t with rfl | hut
        · simpa using hin
        · simpa using ihIR u (by simpa only [setPC_pcOf, if_neg hut] using hu)
      · intro hn
        exact absurd (by simpa using hn) hin
      · simpa using ihCL
      · intro hc u
        rcases eq_or_ne u t with rfl | hut
        · simp
        · simp only [setPC_pcOf, if_neg hut]
          exact ihCN (by simpa using hc) u
      · intro _
        rcases ihIP hin with hc | ⟨u, hu⟩
        · exact Or.inl (by simpa using hc)
        · have hut : u ≠ t := by
            intro he
            subst he
            rw [hpc] at hu
            rcases hu with h2 | h2 <;> cases h2
          refine Or.inr ⟨u, ?_⟩
          simp only [setPC_pcOf, if_neg hut]
          exact hu
      · intro u v hu
        rcases eq_or_ne u t with rfl | hut
        · simp only [setPC_pcOf, if_pos rfl] at hu
          cases hu
        · simp only [setPC_pcOf, if_neg hut] at hu
          simpa using ihDV u v hu
      · intro u hu
        rcases eq_or_ne u t with rfl | hut
        · simp only [setPC_pcOf, if_pos rfl] at hu
          cases hu
        · simp only [setPC_pcOf, if_neg hut] at hu
          exact absurd (ihC0 u hu) hin
    | release t ht hpc h =>
      have hin : s1.instanceRef ≠ none := ihIR t (by simp [hpc])
      refine ⟨?_, ?_, ?_, ?_, ?_, ?_, ?_, ?_, ?_, ?_⟩
      · intro u hu
        simp only [setPC_numThreads] at hu
        have hut : u ≠ t := by omega
        simp only [setPC_pcOf, if_neg hut]
        exact ihF u hu
      · intro u hreg
        rcases eq_or_ne u t with rfl | hut
        · simp only [setPC_pcOf, if_pos rfl] at hreg
          simp [InRegion] at hreg
        · simp only [setPC_pcOf, if_neg hut] at hreg
          exfalso
          have hl1 := ihRL u hreg
          rw [h] at hl1
          exact hut (Option.some.inj hl1).symm
      · intro hd
        simpa using ihDI (by simpa using hd)
      · intro u hu
        rcases eq_or_ne u t with rfl | hut
        · simpa using hin
        · simpa using ihIR u (by simpa only [setPC_pcOf, if_neg hut] using hu)
      · intro hn
        exact absurd (by simpa using hn) hin
      · simpa using ihCL
      · intro hc u
        rcases eq_or_ne u t with rfl | hut
        · simp
        · simp only [setPC_pcOf, if_neg hut]
          exact ihCN (by simpa using hc) u
      · intro _
        rcases ihIP hin with hc | ⟨u, hu⟩
        · exact Or.inl (by simpa using hc)
        · have hut : u ≠ t := by
            intro he
            subst he
            rw [hpc] at hu
            rcases hu with h2 | h2 <;> cases h2
          refine Or.inr ⟨u, ?_⟩
          simp only [setPC_pcOf, if_neg hut]
          exact hu
      · intro u v hu
        rcases eq_or_ne u t with rfl | hut
        · simp only [setPC_pcOf, if_pos rfl] at hu
          cases hu
        · simp only [setPC_pcOf, if_neg hut] at hu
          simpa using ihDV u v hu
      · intro u hu
        rcases eq_or_ne u t with rfl | hut
        · simp only [setPC_pcOf, if_pos rfl] at hu
          cases hu
        · simp only [setPC_pcOf, if_neg hut] at hu
          exact absurd (ihC0 u hu) hin
    | ret t ht hpc =>
      have hin : s1.instanceRef ≠ none := ihIR t (by simp [hpc])
      refine ⟨?_, ?_, ?_, ?_, ?_, ?_, ?_, ?_, ?_, ?_⟩
      · intro u hu
        simp only [setPC_numThreads] at hu
        have hut : u ≠ t := by omega
        simp only [setPC_pcOf, if_neg hut]
        exact ihF u hu
      · intro u hreg
        rcases eq_or_ne u t with rfl | hut
        · simp only [setPC_pcOf, if_pos rfl] at hreg
          simp [InRegion] at hreg
        · simp only [setPC_pcOf, if_neg hut] at hreg
          simpa using ihRL u hreg
      · intro hd
        simpa using ihDI (by simpa using hd)
      · intro u hu
        rcases eq_or_ne u t with rfl | hut
        · simp only [setPC_pcOf, if_pos rfl] at hu
          simp at hu
        · simpa using ihIR u (by simpa only [setPC_pcOf, if_neg hut] using hu)
      · intro hn
        exact absurd (by simpa using hn) hin
      · simpa using ihCL
      · intro hc u
        rcases eq_or_ne u t with rfl | hut
        · simp
        · simp only [setPC_pcOf, if_neg hut]
          exact ihCN (by simpa using hc) u
      · intro _
        rcases ihIP hin with hc | ⟨u, hu⟩
        · exact Or.inl (by simpa using hc)
        · have hut : u ≠ t := by
            intro he
            subst he
            rw [hpc] at hu
            rcases hu with h2 | h2 <;> cases h2
          refine Or.inr ⟨u, ?_⟩
          simp only [setPC_pcOf, if_neg hut]
          exact hu
      · intro u v hu
        rcases eq_or_ne u t with rfl | hut
        · simp only [setPC_pcOf, if_pos rfl] at hu
          injection hu with hv
          subst hv
          exact ⟨by simp, by simpa using hin⟩
        · simp only [setPC_pcOf, if_neg hut] at hu
          simpa using ihDV u v hu
      · intro u hu
        rcases eq_or_ne u t with rfl | hut
        · simp only [setPC_pcOf, if_pos rfl] at hu
          cases hu
        · simp only [setPC_pcOf, if_neg hut] at hu
          simpa using ihC0 u hu

/-- C1: in every reachable interleaving of any number of `Database()`
callers, the connection-setup/schema-bootstrap block has run at most
once; any two invocations that have returned returned the same
(non-null) instance; and once every thread has returned (at least one
thread exists), the setup block has run exactly once. -/
theorem C1_singleton_once (s : SingletonState) (hs : SReachable s) :
    s.initCount ≤ 1 ∧
    (∀ t1 t2 v1 v2, s.pcOf t1 = PC.done v1 → s.pcOf t2 = PC.done v2 →
        v1 = v2 ∧ v1 ≠ none) ∧
    (0 < s.numThreads → (∀ t, t < s.numThreads → ∃ v, s.pcOf t = PC.done v) →
        s.initCount = 1) := by
  obtain ⟨ihF, ihRL, ihDI, ihIR, ihNC, ihCL, ihCN, ihIP, ihDV, ihC0⟩ := sreachable_inv s hs
  refine ⟨ihCL, ?_, ?_⟩
  · intro t1 t2 v1 v2 h1 h2
    have d1 := ihDV t1 v1 h1
    have d2 := ihDV t2 v2 h2
    exact ⟨d1.1.trans d2.1.symm, d1.2⟩
  · intro hn hall
    obtain ⟨v, hv⟩ := hall 0 hn
    have hin : s.instanceRef ≠ none := by
      have hd := ihDV 0 v hv
      rw [← hd.1]
      exact hd.2
    rcases ihIP hin with hc | ⟨t, htc⟩
    · exact hc
    · exfalso
      have htlt : t < s.numThreads := by
        by_contra hge
        have hfr := ihF t (by omega)
        rw [hfr] at htc
        rcases htc with h2 | h2 <;> cases h2
      obtain ⟨v2, hv2⟩ := hall t htlt
      rw [hv2] at htc
      rcases htc with h2 | h2 <;> cases h2

theorem C1_singleton_once_witness :
    ∃ s, SReachable s ∧ s.numThreads = 2 ∧
      s.pcOf 0 = PC.done (some 0) ∧ s.pcOf 1 = PC.done (some 0) ∧
      s.initCount = 1 := by
  have hr0 : SReachable (initialState 2) := SReachable.init 2
  have hr1 := hr0.step (SStep.checkTrue _ 0 (by decide) rfl rfl rfl)
  have hr2 := hr1.step (SStep.acquire _ 0 (by decide) rfl rfl)
  have hr3 := hr2.step (SStep.recheckTrue _ 0 (by decide) rfl rfl)
  have hr4 := hr3.step (SStep.create _ 0 (by decide) rfl)
  have hr5 := hr4.step (SStep.runInit _ 0 (by decide) rfl)
  have hr6 := hr5.step (SStep.setDcl _ 0 (by decide) rfl)
  have hr7 := hr6.step (SStep.release _ 0 (by decide) rfl rfl)
  have hr8 := hr7.step (SStep.ret _ 0 (by decide) rfl)
  have hr9 := hr8.step (SStep.checkFalse _ 1 (by decide) rfl (by decide))
  have hr10 := hr9.step (SStep.ret _ 1 (by decide) rfl)
  refine ⟨_, hr10, rfl, rfl, rfl, ?_⟩
  refine (C1_singleton_once _ hr10).2.2 (by decide) ?_
  intro t htlt
  have ht2 : t < 2 := htlt
  have : t = 0 ∨ t = 1 := by omega
  rcases this with rfl | rfl
  · exact ⟨some 0, rfl⟩
  · exact ⟨some 0, rfl⟩
